import Mathlib

/-!
Shallow embedding of the tinyvm byte-code virtual machine
(src/memory.rs and src/vm.rs) and verification of its specification.

Machine integers (u8, u16) are modelled as `Nat` with explicit `% 2 ^ w`
reductions at the points where the Rust code performs wrapping arithmetic
(release-mode semantics, which is also what the specification describes).
Fallible operations return `Option` / `Except`; the `&mut self` methods of
`Machine` are modelled as state-passing functions returning the new machine
together with the `Result` value.  The `.unwrap()` on the instruction fetch
in `Machine::step` (an unrecoverable panic) is modelled by having `step`
return `Option`: `none` is the abort.
-/

deriving instance DecidableEq for Except

namespace TinyVM

/-- The register file enumeration of vm.rs: `#[repr(u8)] pub enum Register`. -/
inductive Register where
  | A
  | B
  | C
  | M
  | SP
  | PC
  | BP
  | FLAGS
deriving DecidableEq

/-- The discriminant of a register (`Register as u8` / `as usize` in vm.rs):
A=0, B=1, C=2, M=3, SP=4, PC=5, BP=6, FLAGS=7. -/
def Register.toNat : Register → Nat
  | .A => 0
  | .B => 1
  | .C => 2
  | .M => 3
  | .SP => 4
  | .PC => 5
  | .BP => 6
  | .FLAGS => 7

/-- `Register::from_u8`: compares the argument against each discriminant in
declaration order and returns the matching register, `None` otherwise. -/
def Register.fromU8 (value : Nat) : Option Register :=
  if value = Register.A.toNat then some .A
  else if value = Register.B.toNat then some .B
  else if value = Register.C.toNat then some .C
  else if value = Register.M.toNat then some .M
  else if value = Register.SP.toNat then some .SP
  else if value = Register.PC.toNat then some .PC
  else if value = Register.BP.toNat then some .BP
  else if value = Register.FLAGS.toNat then some .FLAGS
  else none

/-- The error outcomes of vm.rs.  The Rust code uses `String` messages; each
message is a fixed format string applied to the payload recorded here
(`"Unknown register 0x{:X}"`, `"Unknown instruction 0x{:X}"`,
`"Stack underflow"`, `"Stack overflow"`), so this closed type is a faithful
rendering of the information the strings carry. -/
inductive VMError where
  | unknownRegister (value : Nat)
  | unknownInstruction (op : Nat)
  | stackUnderflow
  | stackOverflow
deriving DecidableEq

/-- The instruction set: `#[repr(u8)] pub enum Op` of vm.rs. -/
inductive Op where
  | Nop
  | Push (value : Nat)
  | PopRegister (r : Register)
  | AddStack
  | AddRegister (r1 r2 : Register)
  | Mov (r1 r2 : Register)
deriving DecidableEq

/-- `Op::value`: the discriminant of the variant (the unsafe tag read in
vm.rs), Nop=0, Push=1, PopRegister=2, AddStack=3, AddRegister=4, Mov=5. -/
def Op.value : Op → Nat
  | .Nop => 0
  | .Push _ => 1
  | .PopRegister _ => 2
  | .AddStack => 3
  | .AddRegister _ _ => 4
  | .Mov _ _ => 5

/-- `parse_instruction` of vm.rs: dispatch on the low byte of the 16-bit
instruction word, extracting operands from the high bits as required. -/
def parse_instruction (ins : Nat) : Except VMError Op :=
  let op := ins &&& 0xff
  if op = Op.Nop.value then .ok .Nop
  else if op = (Op.Push 0).value then
    let arg := (ins &&& 0xff00) >>> 8
    .ok (.Push arg)
  else if op = (Op.PopRegister .A).value then
    let reg := (ins &&& 0xf00) >>> 8
    match Register.fromU8 reg with
    | some r => .ok (.PopRegister r)
    | none => .error (.unknownRegister reg)
  else if op = Op.AddStack.value then .ok .AddStack
  else if op = (Op.AddRegister .A .B).value then .ok (.AddRegister .A .B)
  else if op = (Op.Mov .A .B).value then .ok (.Mov .A .B)
  else .error (.unknownInstruction op)

/-- The `Addressable` trait of memory.rs: a byte-addressable backing store
with a fallible single-byte read and a single-byte write returning a success
flag (and the possibly mutated store). -/
structure Addressable (σ : Type) where
  read : σ → Nat → Option Nat
  write : σ → Nat → Nat → Bool × σ

/-- Default method `Addressable::read2`: little-endian composition of the
bytes at `address` and `address + 1` (u16 address arithmetic), absent if
either single-byte read fails. -/
def Addressable.read2 (A : Addressable σ) (s : σ) (address : Nat) : Option Nat :=
  match A.read s address with
  | some x0 =>
    match A.read s ((address + 1) % 65536) with
    | some x1 => some (x0 ||| (x1 <<< 8))
    | none => none
  | none => none

/-- Default method `Addressable::write2`: writes the low byte at `address`,
then (only if that succeeded, mirroring the short-circuiting `&&`) the high
byte at `address + 1` (u16 address arithmetic). -/
def Addressable.write2 (A : Addressable σ) (s : σ) (address value : Nat) : Bool × σ :=
  let lower := value &&& 0xff
  let upper := (value &&& 0xff00) >>> 8
  match A.write s address lower with
  | (true, s1) => A.write s1 ((address + 1) % 65536) upper
  | (false, s1) => (false, s1)

/-- `LinearMemory` of memory.rs: a fixed-size zero-initialized byte buffer.
The `Vec<u8>` is modelled as a function from addresses to bytes together
with the recorded size. -/
structure LinearMemory where
  bytes : Nat → Nat
  size : Nat

/-- `LinearMemory::new(n)`: zero-filled buffer of size n. -/
def LinearMemory.new (n : Nat) : LinearMemory :=
  { bytes := fun _ => 0, size := n }

/-- `LinearMemory`'s read: bounds check `address < size`. -/
def LinearMemory.read (m : LinearMemory) (address : Nat) : Option Nat :=
  if address < m.size then some (m.bytes address) else none

/-- `LinearMemory`'s write: bounds check `address < size`, stores the byte
on success, no mutation on failure. -/
def LinearMemory.write (m : LinearMemory) (address value : Nat) : Bool × LinearMemory :=
  if address < m.size then
    (true, { m with bytes := fun a => if a = address then value else m.bytes a })
  else
    (false, m)

/-- The `impl Addressable for LinearMemory` instance. -/
def linA : Addressable LinearMemory :=
  { read := LinearMemory.read, write := LinearMemory.write }

/-- The `Machine` of vm.rs: the 8-slot register file and the owned memory.
The register array `[u16; 8]` is modelled as a function from `Register`
(the array is only ever indexed at `reg as usize` for a `Register` value). -/
structure Machine (σ : Type) where
  registers : Register → Nat
  memory : σ

/-- Pointwise update of the register file (`self.registers[r as usize] = v`). -/
def updateReg (regs : Register → Nat) (r : Register) (v : Nat) : Register → Nat :=
  fun r2 => if r2 = r then v else regs r2

/-- `Machine::new`: zero-filled registers, linear memory of 8 * 1024 bytes. -/
def Machine.new : Machine LinearMemory :=
  { registers := fun _ => 0, memory := LinearMemory.new (8 * 1024) }

/-- `Machine::get_register`. -/
def Machine.get_register (m : Machine σ) (reg : Register) : Nat :=
  m.registers reg

/-- `Machine::pop`: computes the candidate address SP - 2 (u16 wrapping
subtraction), reads the 16-bit word there, and only on success commits by
storing SP - 2 into SP; on failure returns the stack-underflow error with
no mutation. -/
def Machine.pop (A : Addressable σ) (m : Machine σ) : Machine σ × Except VMError Nat :=
  let sp := (m.registers .SP + 65536 - 2) % 65536
  match A.read2 m.memory sp with
  | some v =>
    ({ m with registers := updateReg m.registers .SP sp }, .ok v)
  | none => (m, .error .stackUnderflow)

/-- `Machine::push`: 16-bit write of the value at the address in SP; on
success increments SP by 2 (u16 wrapping), on failure returns the
stack-overflow error leaving the registers (in particular SP) unchanged,
but keeping whatever partial mutation the memory write performed. -/
def Machine.push (A : Addressable σ) (m : Machine σ) (value : Nat) :
    Machine σ × Except VMError Unit :=
  let sp := m.registers .SP
  match A.write2 m.memory sp value with
  | (false, mem2) => ({ m with memory := mem2 }, .error .stackOverflow)
  | (true, mem2) =>
    ({ registers := updateReg m.registers .SP ((sp + 2) % 65536), memory := mem2 }, .ok ())

/-- `Machine::step`: fetch the instruction word at PC (the `.unwrap()` on a
failed fetch — a panic — is the `none` outcome), advance PC by 2 (u16
wrapping), decode, and execute.  Decode failures and stack failures are
returned as `Except.error` results. -/
def Machine.step (A : Addressable σ) (m : Machine σ) :
    Option (Machine σ × Except VMError Unit) :=
  let pc := m.registers .PC
  match A.read2 m.memory pc with
  | none => none
  | some instruction =>
    let m1 : Machine σ := { m with registers := updateReg m.registers .PC ((pc + 2) % 65536) }
    match parse_instruction instruction with
    | .error e => some (m1, .error e)
    | .ok op =>
      some (match op with
        | .Nop => (m1, .ok ())
        | .Push arg => Machine.push A m1 arg
        | .PopRegister reg =>
          match Machine.pop A m1 with
          | (m2, .ok value) =>
            ({ m2 with registers := updateReg m2.registers reg value }, .ok ())
          | (m2, .error e) => (m2, .error e)
        | .AddStack =>
          match Machine.pop A m1 with
          | (m2, .error e) => (m2, .error e)
          | (m2, .ok reg1) =>
            match Machine.pop A m2 with
            | (m3, .error e) => (m3, .error e)
            | (m3, .ok reg2) => Machine.push A m3 ((reg1 + reg2) % 65536)
        | .AddRegister reg1 reg2 =>
          let sum := (m1.registers reg1 + m1.registers reg2) % 65536
          ({ m1 with registers := updateReg m1.registers reg1 sum }, .ok ())
        | .Mov reg1 reg2 =>
          ({ m1 with registers := updateReg m1.registers reg1 (m1.registers reg2) }, .ok ()))

/-- The demonstration machine of bin/vm.rs: a fresh machine whose memory is
loaded (via the single-byte trait write, ignoring the success flag) with
PUSH 2; PUSH 6; ADDSTACK at 0..4 and POP A at 6..7. -/
def demoMachine : Machine LinearMemory :=
  { registers := fun _ => 0
    memory :=
      (LinearMemory.write
        (LinearMemory.write
          (LinearMemory.write
            (LinearMemory.write
              (LinearMemory.write
                (LinearMemory.write
                  (LinearMemory.write (LinearMemory.new (8 * 1024)) 0 0x1).2
                  1 2).2
                2 0x1).2
              3 6).2
            4 0x3).2
          6 0x2).2
        7 0).2 }

end TinyVM

namespace TinyVM

/-! ## Arithmetic facts about the bit manipulations of memory.rs -/

/-- Masking with 0xff is reduction modulo 256. -/
lemma and_ff (v : Nat) : v &&& 0xff = v % 256 := by
  have h : (0xff : Nat) = 2 ^ 8 - 1 := by norm_num
  rw [h, Nat.and_pow_two_sub_one_eq_mod]

/-- The high-byte extraction of write2 is div-mod arithmetic. -/
lemma and_ff00_shift (v : Nat) : (v &&& 0xff00) >>> 8 = v / 256 % 256 := by
  apply Nat.eq_of_testBit_eq
  intro j
  have h : (0xff00 : Nat) = 2 ^ 8 * (2 ^ 8 - 1) := by norm_num
  have h2 : (256 : Nat) = 2 ^ 8 := by norm_num
  rw [h, h2, Nat.testBit_shiftRight, Nat.testBit_and, Nat.testBit_mul_pow_two,
    ← Nat.shiftRight_eq_div_pow, Nat.testBit_mod_two_pow, Nat.testBit_shiftRight]
  simp only [Nat.testBit_two_pow_sub_one, Nat.add_sub_cancel_left, ge_iff_le,
    Nat.le_add_right, decide_True, Bool.true_and]
  rw [Bool.and_comm]

/-- A bitwise or of a byte with a multiple of 256 is plain addition. -/
lemma lor_disjoint_eq_add {lo hi : Nat} (h : lo < 256) : lo ||| hi * 256 = 256 * hi + lo := by
  apply Nat.eq_of_testBit_eq
  intro j
  have h2 : (256 : Nat) = 2 ^ 8 := by norm_num
  rw [h2] at h ⊢
  rw [Nat.mul_comm hi (2 ^ 8), Nat.testBit_or, Nat.testBit_mul_pow_two,
    Nat.testBit_mul_pow_two_add _ h]
  by_cases hj : j < 8
  · have hge : ¬ (j ≥ 8) := by omega
    simp [hj, hge]
  · have hlo : lo.testBit j = false :=
      Nat.testBit_lt_two_pow (lt_of_lt_of_le h (Nat.pow_le_pow_right (by norm_num) (by omega)))
    have hge : j ≥ 8 := by omega
    simp [hlo, hj, hge]

/-- read2's little-endian composition inverts write2's byte split. -/
lemma low_or_high {v : Nat} (hv : v < 65536) :
    (v &&& 0xff) ||| (((v &&& 0xff00) >>> 8) <<< 8) = v := by
  rw [and_ff, and_ff00_shift, Nat.shiftLeft_eq]
  have h : (2 : Nat) ^ 8 = 256 := by norm_num
  rw [h, lor_disjoint_eq_add (Nat.mod_lt _ (by norm_num))]
  omega

/-! ## Register decode helpers -/

/-- Every index below 8 resolves to the register with that discriminant. -/
lemma fromU8_total (v : Nat) (h : v < 8) :
    ∃ r, Register.fromU8 v = some r ∧ Register.toNat r = v := by
  interval_cases v
  exacts [⟨.A, rfl, rfl⟩, ⟨.B, rfl, rfl⟩, ⟨.C, rfl, rfl⟩, ⟨.M, rfl, rfl⟩,
    ⟨.SP, rfl, rfl⟩, ⟨.PC, rfl, rfl⟩, ⟨.BP, rfl, rfl⟩, ⟨.FLAGS, rfl, rfl⟩]

/-- Indices 8 and above resolve to no register. -/
lemma fromU8_ge (v : Nat) (h : 8 ≤ v) : Register.fromU8 v = none := by
  simp only [Register.fromU8, Register.toNat]
  repeat rw [if_neg (by omega)]

/-- Claim C1: instruction decode is exact and total over opcode bytes: low
byte 0,1,2,3,4,5 decodes to Nop, Push(high byte), PopRegister(register in
bits 8-11), AddStack, AddRegister(A,B), Mov(A,B) respectively; a low byte
outside 0-5 gives an unknown-opcode error carrying that byte; and low byte
2 with register bits >= 8 gives an unknown-register error carrying that
value. -/
theorem C1_decode_total (ins : Nat) (hins : ins < 65536) :
    (ins &&& 0xff = 0 → parse_instruction ins = .ok .Nop) ∧
    (ins &&& 0xff = 1 → parse_instruction ins = .ok (.Push ((ins &&& 0xff00) >>> 8))) ∧
    (ins &&& 0xff = 2 → (ins &&& 0xf00) >>> 8 < 8 →
      ∃ r, Register.fromU8 ((ins &&& 0xf00) >>> 8) = some r ∧
        Register.toNat r = (ins &&& 0xf00) >>> 8 ∧
        parse_instruction ins = .ok (.PopRegister r)) ∧
    (ins &&& 0xff = 2 → 8 ≤ (ins &&& 0xf00) >>> 8 →
      parse_instruction ins = .error (.unknownRegister ((ins &&& 0xf00) >>> 8))) ∧
    (ins &&& 0xff = 3 → parse_instruction ins = .ok .AddStack) ∧
    (ins &&& 0xff = 4 → parse_instruction ins = .ok (.AddRegister .A .B)) ∧
    (ins &&& 0xff = 5 → parse_instruction ins = .ok (.Mov .A .B)) ∧
    (5 < ins &&& 0xff → parse_instruction ins = .error (.unknownInstruction (ins &&& 0xff))) := by
  refine ⟨?_, ?_, ?_, ?_, ?_, ?_, ?_, ?_⟩
  · intro h
    simp [parse_instruction, Op.value, h]
  · intro h
    simp [parse_instruction, Op.value, h]
  · intro h hreg
    obtain ⟨r, hr, htn⟩ := fromU8_total _ hreg
    refine ⟨r, hr, htn, ?_⟩
    simp [parse_instruction, Op.value, h, hr]
  · intro h hreg
    simp [parse_instruction, Op.value, h, fromU8_ge _ hreg]
  · intro h
    simp [parse_instruction, Op.value, h]
  · intro h
    simp [parse_instruction, Op.value, h]
  · intro h
    simp [parse_instruction, Op.value, h]
  · intro h
    simp only [parse_instruction, Op.value]
    repeat rw [if_neg (by omega)]

/-- Witness for C1: the decode theorem applied at one concrete word of each
kind. -/
theorem C1_decode_total_witness :
    parse_instruction 0x0000 = .ok .Nop ∧
    parse_instruction 0x0201 = .ok (.Push 2) ∧
    parse_instruction 0x0102 = .ok (.PopRegister .B) ∧
    parse_instruction 0x0902 = .error (.unknownRegister 9) ∧
    parse_instruction 0x0003 = .ok .AddStack ∧
    parse_instruction 0x0004 = .ok (.AddRegister .A .B) ∧
    parse_instruction 0x0005 = .ok (.Mov .A .B) ∧
    parse_instruction 0x0006 = .error (.unknownInstruction 6) := by
  refine ⟨?_, ?_, ?_, ?_, ?_, ?_, ?_, ?_⟩
  · exact (C1_decode_total 0x0000 (by norm_num)).1 (by decide)
  · exact (C1_decode_total 0x0201 (by norm_num)).2.1 (by decide)
  · obtain ⟨r, hr, htn, hp⟩ :=
      (C1_decode_total 0x0102 (by norm_num)).2.2.1 (by decide) (by decide)
    have : some Register.B = some r := by rw [← hr]; decide
    cases this
    exact hp
  · exact (C1_decode_total 0x0902 (by norm_num)).2.2.2.1 (by decide) (by decide)
  · exact (C1_decode_total 0x0003 (by norm_num)).2.2.2.2.1 (by decide)
  · exact (C1_decode_total 0x0004 (by norm_num)).2.2.2.2.2.1 (by decide)
  · exact (C1_decode_total 0x0005 (by norm_num)).2.2.2.2.2.2.1 (by decide)
  · exact (C1_decode_total 0x0006 (by norm_num)).2.2.2.2.2.2.2 (by decide)

end TinyVM

namespace TinyVM

/-- Evaluation of a linear-memory write at a valid address. -/
lemma lm_write_lt {m : LinearMemory} {a : Nat} (v : Nat) (h : a < m.size) :
    LinearMemory.write m a v =
      (true, { m with bytes := fun x => if x = a then v else m.bytes x }) := by
  simp [LinearMemory.write, h]

/-- Evaluation of a linear-memory write at an out-of-range address. -/
lemma lm_write_ge {m : LinearMemory} {a : Nat} (v : Nat) (h : m.size ≤ a) :
    LinearMemory.write m a v = (false, m) := by
  simp [LinearMemory.write, Nat.not_lt.mpr h]

/-- Evaluation of a 16-bit linear-memory write with both addresses valid. -/
lemma lm_write2_eq {m : LinearMemory} {a : Nat} (v : Nat)
    (h1 : a < m.size) (h2 : (a + 1) % 65536 < m.size) :
    Addressable.write2 linA m a v =
      (true, { m with bytes := fun x => if x = (a + 1) % 65536 then (v &&& 0xff00) >>> 8 else if x = a then v &&& 0xff else m.bytes x }) := by
  simp only [Addressable.write2, linA, LinearMemory.write]
  rw [if_pos h1]
  dsimp only
  rw [if_pos h2]

/-- Claim C4: memory round trip on linear memory. For every 16-bit value v
and 16-bit address a with both a and a+1 (u16 arithmetic) below the
memory's size, write2(a, v) succeeds and read2(a) returns v, with the low
byte stored at a and the high byte at a+1 (little-endian). -/
theorem C4_memory_round_trip (m : LinearMemory) (a v : Nat)
    (ha : a < 65536) (hv : v < 65536)
    (h1 : a < m.size) (h2 : (a + 1) % 65536 < m.size) :
    (Addressable.write2 linA m a v).1 = true ∧
    Addressable.read2 linA (Addressable.write2 linA m a v).2 a = some v ∧
    LinearMemory.read (Addressable.write2 linA m a v).2 a = some (v % 256) ∧
    LinearMemory.read (Addressable.write2 linA m a v).2 ((a + 1) % 65536) = some (v / 256) := by
  have hne1 : a ≠ (a + 1) % 65536 := by omega
  have hd : v / 256 % 256 = v / 256 := by omega
  rw [lm_write2_eq v h1 h2]
  refine ⟨rfl, ?_, ?_, ?_⟩
  · simp [Addressable.read2, linA, LinearMemory.read, h1, h2, hne1, low_or_high hv]
  · simp [LinearMemory.read, h1, hne1, and_ff]
  · simp [LinearMemory.read, h2, and_ff00_shift, hd]

/-- Witness for C4 at a concrete memory, address and value. -/
theorem C4_memory_round_trip_witness :
    (Addressable.write2 linA (LinearMemory.new 8192) 5 0xABCD).1 = true ∧
    Addressable.read2 linA (Addressable.write2 linA (LinearMemory.new 8192) 5 0xABCD).2 5 =
      some 0xABCD ∧
    LinearMemory.read (Addressable.write2 linA (LinearMemory.new 8192) 5 0xABCD).2 5 =
      some (0xABCD % 256) ∧
    LinearMemory.read (Addressable.write2 linA (LinearMemory.new 8192) 5 0xABCD).2
      ((5 + 1) % 65536) = some (0xABCD / 256) := by
  exact C4_memory_round_trip (LinearMemory.new 8192) 5 0xABCD (by norm_num) (by norm_num)
    (by norm_num [LinearMemory.new]) (by norm_num [LinearMemory.new])

/-- Claim C3: stack round trip. For every 16-bit value v and machine whose
SP and SP+1 are valid linear-memory addresses, push(v) succeeds, a
following pop() returns v, and SP is back at its pre-push value. -/
theorem C3_stack_round_trip (m : Machine LinearMemory) (v : Nat)
    (hv : v < 65536) (hsp : m.registers .SP < 65536)
    (h1 : m.registers .SP < m.memory.size)
    (h2 : (m.registers .SP + 1) % 65536 < m.memory.size) :
    (Machine.push linA m v).2 = .ok () ∧
    (Machine.pop linA (Machine.push linA m v).1).2 = .ok v ∧
    (Machine.pop linA (Machine.push linA m v).1).1.registers .SP = m.registers .SP := by
  have hsp2 : (m.registers .SP + 2 + 65534) % 65536 = m.registers .SP := by omega
  have hne1 : m.registers .SP ≠ (m.registers .SP + 1) % 65536 := by omega
  have hpush : Machine.push linA m v =
      ({ registers := updateReg m.registers .SP ((m.registers .SP + 2) % 65536),
         memory := { m.memory with bytes := fun x => if x = (m.registers .SP + 1) % 65536 then (v &&& 0xff00) >>> 8 else if x = m.registers .SP then v &&& 0xff else m.memory.bytes x } }, .ok ()) := by
    simp only [Machine.push]
    rw [lm_write2_eq v h1 h2]
  have hpop : (Machine.pop linA (Machine.push linA m v).1).2 = .ok v ∧
      (Machine.pop linA (Machine.push linA m v).1).1.registers .SP = m.registers .SP := by
    rw [hpush]
    dsimp only
    simp [Machine.pop, updateReg]
    rw [hsp2]
    simp [Addressable.read2, linA, LinearMemory.read, updateReg, h1, h2, hne1, low_or_high hv]
  refine ⟨?_, hpop.1, hpop.2⟩
  rw [hpush]

/-- Witness for C3 on a freshly constructed machine. -/
theorem C3_stack_round_trip_witness :
    (Machine.push linA Machine.new 0x1234).2 = .ok () ∧
    (Machine.pop linA (Machine.push linA Machine.new 0x1234).1).2 = .ok 0x1234 ∧
    (Machine.pop linA (Machine.push linA Machine.new 0x1234).1).1.registers .SP =
      Machine.new.registers .SP := by
  exact C3_stack_round_trip Machine.new 0x1234 (by norm_num) (by decide) (by decide) (by decide)

/-- Claim C2: the demonstration program (push 2, push 6, add-stack, pop
into A) runs for four successful steps from the loaded fresh machine and
leaves register A holding 8. -/
theorem C2_demo_program :
    ∃ m1 m2 m3 m4,
      Machine.step linA demoMachine = some (m1, .ok ()) ∧
      Machine.step linA m1 = some (m2, .ok ()) ∧
      Machine.step linA m2 = some (m3, .ok ()) ∧
      Machine.step linA m3 = some (m4, .ok ()) ∧
      Machine.get_register m4 .A = 8 := by
  refine ⟨_, _, _, _, rfl, rfl, rfl, rfl, ?_⟩
  decide

end TinyVM

namespace TinyVM

/-- pop never changes a register other than SP, whether it succeeds or
fails. -/
lemma pop_registers_ne {σ : Type} (A : Addressable σ) (m : Machine σ) {r : Register}
    (h : r ≠ .SP) : ((Machine.pop A m).1).registers r = m.registers r := by
  simp only [Machine.pop]
  cases hr : A.read2 m.memory ((m.registers .SP + 65536 - 2) % 65536) <;>
    simp [hr, updateReg, h]

/-- push never changes a register other than SP, whether it succeeds or
fails. -/
lemma push_registers_ne {σ : Type} (A : Addressable σ) (m : Machine σ) (v : Nat)
    {r : Register} (h : r ≠ .SP) :
    ((Machine.push A m v).1).registers r = m.registers r := by
  simp only [Machine.push]
  rcases hw : Addressable.write2 A m.memory (m.registers .SP) v with ⟨ok, mem2⟩
  cases ok <;> simp [updateReg, h]

/-- Claim C5: whenever the instruction-word fetch at PC succeeds, step
produces a result (it does not abort), and on every error result PC holds
the pre-step PC plus 2 (16-bit addition) — the advance happens before
decode/execute and is not rolled back. -/
theorem C5_pc_advance {σ : Type} (A : Addressable σ) (m : Machine σ) (w : Nat)
    (hw : A.read2 m.memory (m.registers .PC) = some w) :
    ∃ p, Machine.step A m = some p ∧
      ∀ e, p.2 = .error e → p.1.registers .PC = (m.registers .PC + 2) % 65536 := by
  have hPCne : (Register.PC : Register) ≠ .SP := by decide
  simp only [Machine.step, hw]
  cases hp : parse_instruction w with
  | error e =>
    refine ⟨_, rfl, ?_⟩
    intro e2 h2
    simp [updateReg]
  | ok op =>
    cases op with
    | Nop =>
      dsimp only
      refine ⟨_, rfl, ?_⟩
      intro e h
      simp at h
    | Push arg =>
      dsimp only
      refine ⟨_, rfl, ?_⟩
      intro e h
      rw [push_registers_ne A _ arg hPCne]
      simp [updateReg]
    | PopRegister reg =>
      dsimp only
      refine ⟨_, rfl, ?_⟩
      split
      · intro e h
        simp at h
      · rename_i m2 e0 heq
        intro e h
        have hm2 := congrArg Prod.fst heq
        dsimp at hm2
        rw [← hm2, pop_registers_ne A _ hPCne]
        simp [updateReg]
    | AddStack =>
      dsimp only
      refine ⟨_, rfl, ?_⟩
      split
      · rename_i m2 e0 heq
        intro e h
        have hm2 := congrArg Prod.fst heq
        dsimp at hm2
        rw [← hm2, pop_registers_ne A _ hPCne]
        simp [updateReg]
      · rename_i m2 x1 heq1
        have hm2 := congrArg Prod.fst heq1
        dsimp at hm2
        split
        · rename_i m3 e0 heq2
          intro e h
          have hm3 := congrArg Prod.fst heq2
          dsimp at hm3
          rw [← hm3, pop_registers_ne A _ hPCne, ← hm2, pop_registers_ne A _ hPCne]
          simp [updateReg]
        · rename_i m3 x2 heq2
          intro e h
          have hm3 := congrArg Prod.fst heq2
          dsimp at hm3
          rw [push_registers_ne A _ _ hPCne, ← hm3, pop_registers_ne A _ hPCne, ← hm2,
            pop_registers_ne A _ hPCne]
          simp [updateReg]
    | AddRegister r1 r2 =>
      dsimp only
      refine ⟨_, rfl, ?_⟩
      intro e h
      simp at h
    | Mov r1 r2 =>
      dsimp only
      refine ⟨_, rfl, ?_⟩
      intro e h
      simp at h

end TinyVM

namespace TinyVM

/-- A fresh machine whose memory holds the invalid opcode byte 0x06 at
address 0. -/
def errDemoMachine : Machine LinearMemory :=
  { registers := fun _ => 0
    memory := (LinearMemory.write (LinearMemory.new (8 * 1024)) 0 0x06).2 }

/-- Witness for C5: stepping a machine that fetches the invalid opcode 6
yields an error result with PC advanced by 2. -/
theorem C5_pc_advance_witness :
    ∃ p, Machine.step linA errDemoMachine = some p ∧
      ∀ e, p.2 = .error e →
        p.1.registers .PC = (errDemoMachine.registers .PC + 2) % 65536 :=
  C5_pc_advance linA errDemoMachine 6 (by decide)

/-- Claim C6: failed stack primitives leave SP unchanged.  If the 16-bit
write at SP fails, push returns the stack-overflow error with registers
untouched (only the memory keeps the partial mutation of the failed
write2); if the 16-bit read at SP-2 (u16 wrapping subtraction) fails, pop
returns the stack-underflow error and the machine is unchanged; and pop
commits SP - 2 into SP only after that read succeeded. -/
theorem C6_failed_stack_sp_unchanged {σ : Type} (A : Addressable σ) (m : Machine σ) :
    (∀ v, (Addressable.write2 A m.memory (m.registers .SP) v).1 = false →
      Machine.push A m v =
        ({ m with memory := (Addressable.write2 A m.memory (m.registers .SP) v).2 },
          .error .stackOverflow) ∧
      (Machine.push A m v).1.registers .SP = m.registers .SP) ∧
    (Addressable.read2 A m.memory ((m.registers .SP + 65536 - 2) % 65536) = none →
      Machine.pop A m = (m, .error .stackUnderflow)) ∧
    (∀ v, Addressable.read2 A m.memory ((m.registers .SP + 65536 - 2) % 65536) = some v →
      Machine.pop A m =
        ({ m with registers := updateReg m.registers .SP ((m.registers .SP + 65536 - 2) % 65536) },
          .ok v)) := by
  refine ⟨?_, ?_, ?_⟩
  · intro v hfail
    simp only [Machine.push]
    cases hw : Addressable.write2 A m.memory (m.registers .SP) v with
    | mk ok mem2 =>
      rw [hw] at hfail
      dsimp at hfail
      subst hfail
      exact ⟨rfl, rfl⟩
  · intro hfail
    simp only [Machine.pop]
    rw [hfail]
  · intro v hsome
    simp only [Machine.pop]
    rw [hsome]

/-- A machine whose every register (in particular SP) holds 9000, past the
end of its 8192-byte memory. -/
def bigSPMachine : Machine LinearMemory :=
  { registers := fun _ => 9000, memory := LinearMemory.new (8 * 1024) }

/-- Witness for C6: overflow on push with SP out of range, underflow on pop
from a fresh machine (SP = 0, so SP-2 wraps to 65534), and a committing
successful pop. -/
theorem C6_failed_stack_sp_unchanged_witness :
    (Machine.push linA bigSPMachine 5).2 = .error .stackOverflow ∧
    (Machine.push linA bigSPMachine 5).1.registers .SP = 9000 ∧
    (Machine.pop linA Machine.new).2 = .error .stackUnderflow ∧
    (Machine.pop linA Machine.new).1.registers .SP = 0 ∧
    (Machine.pop linA (Machine.push linA Machine.new 77).1).2 = .ok 77 := by
  have h1 := (C6_failed_stack_sp_unchanged linA bigSPMachine).1 5 (by decide)
  have h2 := (C6_failed_stack_sp_unchanged linA Machine.new).2.1 (by decide)
  have h3 := (C6_failed_stack_sp_unchanged linA
    (Machine.push linA Machine.new 77).1).2.2 77 (by decide)
  refine ⟨?_, ?_, ?_, ?_, ?_⟩
  · rw [h1.1]
  · rw [h1.2]
    rfl
  · rw [h2]
  · rw [h2]
    rfl
  · rw [h3]

/-- A low byte of 3 decodes to AddStack. -/
lemma parse_addstack {ins : Nat} (h : ins &&& 0xff = 3) :
    parse_instruction ins = .ok .AddStack := by
  simp [parse_instruction, Op.value, h]

/-- A low byte of 4 decodes to AddRegister(A, B). -/
lemma parse_addregister {ins : Nat} (h : ins &&& 0xff = 4) :
    parse_instruction ins = .ok (.AddRegister .A .B) := by
  simp [parse_instruction, Op.value, h]

/-- Claim C7: 16-bit wraparound on addition.  Executing AddStack pops two
values and pushes their sum reduced mod 2^16; executing AddRegister (always
materialized with operands (A, B)) stores (A + B) mod 2^16 into A.  In both
cases the FLAGS register is untouched (no overflow flag). -/
theorem C7_add_wraparound {σ : Type} (A : Addressable σ) (m : Machine σ) (w : Nat)
    (hw : A.read2 m.memory (m.registers .PC) = some w) :
    ∀ m1, m1 = { m with registers := updateReg m.registers .PC ((m.registers .PC + 2) % 65536) } →
      ((w &&& 0xff = 3 → ∀ x y,
        (Machine.pop A m1).2 = .ok x →
        (Machine.pop A (Machine.pop A m1).1).2 = .ok y →
        Machine.step A m =
          some (Machine.push A (Machine.pop A (Machine.pop A m1).1).1 ((x + y) % 65536)) ∧
        (Machine.push A (Machine.pop A (Machine.pop A m1).1).1
            ((x + y) % 65536)).1.registers .FLAGS = m.registers .FLAGS) ∧
      (w &&& 0xff = 4 →
        ∃ mr, Machine.step A m = some (mr, .ok ()) ∧
          mr.registers .A = (m.registers .A + m.registers .B) % 65536 ∧
          mr.registers .B = m.registers .B ∧
          mr.registers .FLAGS = m.registers .FLAGS)) := by
  have hFne : (Register.FLAGS : Register) ≠ .SP := by decide
  intro m1 hm1
  constructor
  · intro h3 x y hx hy
    have hparse := parse_addstack h3
    simp only [Machine.step, hw, hparse]
    rw [← hm1]
    cases hpop1 : Machine.pop A m1 with
    | mk m2 r1 =>
      rw [hpop1] at hx hy
      dsimp at hx hy
      subst hx
      dsimp only
      cases hpop2 : Machine.pop A m2 with
      | mk m3 r2 =>
        rw [hpop2] at hy
        dsimp at hy
        subst hy
        dsimp only
        have hm2 := congrArg Prod.fst hpop1
        have hm3 := congrArg Prod.fst hpop2
        dsimp at hm2 hm3
        refine ⟨rfl, ?_⟩
        rw [push_registers_ne A _ _ hFne, ← hm3, pop_registers_ne A _ hFne, ← hm2,
          pop_registers_ne A _ hFne, hm1]
        simp [updateReg]
  · intro h4
    have hparse := parse_addregister h4
    simp only [Machine.step, hw, hparse]
    refine ⟨_, rfl, ?_, ?_, ?_⟩ <;> simp [updateReg]

end TinyVM

namespace TinyVM

/-- A machine set up to execute AddStack: opcode 0x03 at PC = 0, SP = 100,
with 0x0002 stacked at 96 and 0xFFFF stacked at 98. -/
def addDemoMachine : Machine LinearMemory :=
  { registers := fun r => if r = .SP then 100 else 0
    memory :=
      (LinearMemory.write
        (LinearMemory.write
          (LinearMemory.write
            (LinearMemory.write
              (LinearMemory.write (LinearMemory.new (8 * 1024)) 0 0x03).2
              96 0x02).2
            97 0).2
          98 0xff).2
        99 0xff).2 }

/-- addDemoMachine after the PC advance of step. -/
def addDemoAdvanced : Machine LinearMemory :=
  { addDemoMachine with
    registers := updateReg addDemoMachine.registers .PC
      ((addDemoMachine.registers .PC + 2) % 65536) }

/-- A machine set up to execute AddRegister: opcode 0x04 at PC = 0 with
A = 65535 and B = 2, so the wrapped sum is 1. -/
def addRegMachine : Machine LinearMemory :=
  { registers := fun r => if r = .A then 65535 else if r = .B then 2 else 0
    memory := (LinearMemory.write (LinearMemory.new (8 * 1024)) 0 0x04).2 }

/-- Witness for C7: AddStack pops 65535 and 2 and pushes (65535 + 2) mod
2^16 = 1; AddRegister with A = 65535, B = 2 leaves A = 1, B = 2, FLAGS
untouched. -/
theorem C7_add_wraparound_witness :
    (Machine.step linA addDemoMachine =
      some (Machine.push linA
        (Machine.pop linA (Machine.pop linA addDemoAdvanced).1).1 ((65535 + 2) % 65536)) ∧
      (Machine.push linA (Machine.pop linA (Machine.pop linA addDemoAdvanced).1).1
        ((65535 + 2) % 65536)).1.registers .FLAGS = addDemoMachine.registers .FLAGS) ∧
    (∃ mr, Machine.step linA addRegMachine = some (mr, .ok ()) ∧
      mr.registers .A = (addRegMachine.registers .A + addRegMachine.registers .B) % 65536 ∧
      mr.registers .B = addRegMachine.registers .B ∧
      mr.registers .FLAGS = addRegMachine.registers .FLAGS) := by
  constructor
  · exact (C7_add_wraparound linA addDemoMachine 3 (by decide) addDemoAdvanced rfl).1
      (by decide) 65535 2 (by decide) (by decide)
  · exact (C7_add_wraparound linA addRegMachine 4 (by decide) _ rfl).2 (by decide)

/-- Counterexample for C8: for the linear memory of size 65536 at address
a = 65535, the claimed condition a = size - 1 < size holds, yet the first
single-byte write succeeds and the second does not fail (it wraps to
address 0), and write2 returns true — refuting the claimed "exactly when"
characterization. -/
theorem C8_write2_counterexample :
    (65535 = (LinearMemory.new 65536).size - 1 ∧
      (LinearMemory.new 65536).size - 1 < (LinearMemory.new 65536).size) ∧
    ¬ ((LinearMemory.write (LinearMemory.new 65536) 65535 (0xABCD &&& 0xff)).1 = true ∧
      (LinearMemory.write (LinearMemory.write (LinearMemory.new 65536) 65535
          (0xABCD &&& 0xff)).2 ((65535 + 1) % 65536) ((0xABCD &&& 0xff00) >>> 8)).1 = false) ∧
    (Addressable.write2 linA (LinearMemory.new 65536) 65535 0xABCD).1 = true := by
  refine ⟨⟨rfl, by decide⟩, ?_, by decide⟩
  intro h
  exact absurd h.2 (by decide)

/-- Amended claim C8: on linear memory (16-bit addresses), the first
single-byte write of write2 succeeds and the second fails exactly when
a = size - 1 < size AND size <= 65535 (for size = 65536 the second write
wraps to address 0 and succeeds); in that case write2 returns false with
the low byte already stored at a and nothing else mutated — no rollback;
and if the first write fails nothing is mutated at all. -/
theorem C8_write2_partial_amended (m : LinearMemory) (a v : Nat) (ha : a < 65536) :
    (((LinearMemory.write m a (v &&& 0xff)).1 = true ∧
      (LinearMemory.write (LinearMemory.write m a (v &&& 0xff)).2 ((a + 1) % 65536)
        ((v &&& 0xff00) >>> 8)).1 = false) ↔
      (a = m.size - 1 ∧ m.size - 1 < m.size ∧ m.size ≤ 65535)) ∧
    (a < m.size → m.size ≤ (a + 1) % 65536 →
      (Addressable.write2 linA m a v).1 = false ∧
      LinearMemory.read (Addressable.write2 linA m a v).2 a = some (v &&& 0xff) ∧
      (∀ x, x ≠ a → (Addressable.write2 linA m a v).2.bytes x = m.bytes x) ∧
      (Addressable.write2 linA m a v).2.size = m.size) ∧
    (m.size ≤ a → Addressable.write2 linA m a v = (false, m)) := by
  refine ⟨?_, ?_, ?_⟩
  · by_cases hlt : a < m.size
    · by_cases hlt2 : (a + 1) % 65536 < m.size
      · simp [LinearMemory.write, hlt, hlt2]
        omega
      · simp [LinearMemory.write, hlt, hlt2]
        omega
    · simp [LinearMemory.write, hlt]
      omega
  · intro h1 h2
    have hnot : ¬ ((a + 1) % 65536 < m.size) := by omega
    have hw2 : Addressable.write2 linA m a v =
        (false, { m with bytes := fun x => if x = a then v &&& 0xff else m.bytes x }) := by
      simp only [Addressable.write2, linA, LinearMemory.write]
      rw [if_pos h1]
      dsimp only
      rw [if_neg hnot]
    rw [hw2]
    refine ⟨rfl, ?_, ?_, rfl⟩
    · simp [LinearMemory.read, h1]
    · intro x hx
      simp [hx]
  · intro hge
    simp only [Addressable.write2, linA, LinearMemory.write]
    rw [if_neg (by omega)]

/-- Witness for the amended C8: size 8192 at a = 8191 shows the partial
write (false result, low byte committed), and a = 9000 shows the untouched
failure. -/
theorem C8_write2_partial_amended_witness :
    ((LinearMemory.write (LinearMemory.new 8192) 8191 (0xABCD &&& 0xff)).1 = true ∧
      (LinearMemory.write (LinearMemory.write (LinearMemory.new 8192) 8191
        (0xABCD &&& 0xff)).2 ((8191 + 1) % 65536) ((0xABCD &&& 0xff00) >>> 8)).1 = false) ∧
    (Addressable.write2 linA (LinearMemory.new 8192) 8191 0xABCD).1 = false ∧
    LinearMemory.read (Addressable.write2 linA (LinearMemory.new 8192) 8191 0xABCD).2 8191 =
      some (0xABCD &&& 0xff) ∧
    Addressable.write2 linA (LinearMemory.new 8192) 9000 0xABCD =
      (false, LinearMemory.new 8192) := by
  have h := C8_write2_partial_amended (LinearMemory.new 8192) 8191 0xABCD (by norm_num)
  have h9 := C8_write2_partial_amended (LinearMemory.new 8192) 9000 0xABCD (by norm_num)
  obtain ⟨hf, hr, hb, hs⟩ := h.2.1 (by decide) (by decide)
  exact ⟨h.1.mpr (by decide), hf, hr, h9.2.2 (by decide)⟩

/-- Claim C9: a fetch failure is not a typed error: step aborts (returns no
result at all) exactly when the 16-bit instruction read at PC fails; in
particular on linear memory, when PC and PC+1 are both within the memory's
size, step never aborts. -/
theorem C9_fetch_abort :
    (∀ (σ : Type) (A : Addressable σ) (m : Machine σ),
      Machine.step A m = none ↔ A.read2 m.memory (m.registers .PC) = none) ∧
    (∀ m : Machine LinearMemory, m.registers .PC < m.memory.size →
      m.registers .PC + 1 < m.memory.size → Machine.step linA m ≠ none) := by
  have hmain : ∀ (σ : Type) (A : Addressable σ) (m : Machine σ),
      Machine.step A m = none ↔ A.read2 m.memory (m.registers .PC) = none := by
    intro σ A m
    simp only [Machine.step]
    cases hr : A.read2 m.memory (m.registers .PC) with
    | none => simp
    | some w =>
      cases hp : parse_instruction w <;> simp [hp]
  refine ⟨hmain, ?_⟩
  intro m h1 h2 hnone
  rw [hmain] at hnone
  have hlt2 : (m.registers .PC + 1) % 65536 < m.memory.size := by
    have := Nat.mod_le (m.registers .PC + 1) 65536
    omega
  simp only [Addressable.read2, linA, LinearMemory.read] at hnone
  rw [if_pos h1] at hnone
  dsimp only at hnone
  rw [if_pos hlt2] at hnone
  simp at hnone

/-- Witness for C9: a fresh machine (PC = 0, 8192-byte memory) never
aborts. -/
theorem C9_fetch_abort_witness : Machine.step linA Machine.new ≠ none :=
  C9_fetch_abort.2 Machine.new (by decide) (by decide)

/-- Claim C10: read2 and write2 compute their second address as a + 1 in
16-bit arithmetic, so at a = 65535 the second access targets the wrapped
address 0: for any backing store they compose with / write to address 0,
and on a linear memory larger than 65535 bytes they succeed, with the high
byte at address 0. -/
theorem C10_address_wrap {σ : Type} (A : Addressable σ) (s : σ) (v b0 b1 : Nat)
    (mlin : LinearMemory) :
    (A.read s 65535 = some b0 → A.read s 0 = some b1 →
      Addressable.read2 A s 65535 = some (b0 ||| (b1 <<< 8))) ∧
    ((A.write s 65535 (v &&& 0xff)).1 = true →
      Addressable.write2 A s 65535 v =
        A.write (A.write s 65535 (v &&& 0xff)).2 0 ((v &&& 0xff00) >>> 8)) ∧
    (65535 < mlin.size →
      (Addressable.write2 linA mlin 65535 v).1 = true ∧
      LinearMemory.read (Addressable.write2 linA mlin 65535 v).2 65535 = some (v &&& 0xff) ∧
      LinearMemory.read (Addressable.write2 linA mlin 65535 v).2 0 =
        some ((v &&& 0xff00) >>> 8) ∧
      Addressable.read2 linA (Addressable.write2 linA mlin 65535 v).2 65535 =
        some ((v &&& 0xff) ||| (((v &&& 0xff00) >>> 8) <<< 8))) := by
  have h0 : (65535 + 1) % 65536 = 0 := by norm_num
  refine ⟨?_, ?_, ?_⟩
  · intro hr0 hr1
    simp only [Addressable.read2]
    rw [hr0, h0, hr1]
  · intro hok
    simp only [Addressable.write2]
    cases hw : A.write s 65535 (v &&& 0xff) with
    | mk ok s1 =>
      rw [hw] at hok
      dsimp at hok
      subst hok
      dsimp only
  · intro hsz
    have h2 : (65535 + 1) % 65536 < mlin.size := by omega
    rw [lm_write2_eq v hsz h2]
    have hz : 0 < mlin.size := by omega
    refine ⟨rfl, ?_, ?_, ?_⟩
    · simp [LinearMemory.read, hsz, h0]
    · simp [LinearMemory.read, hz, h0]
    · simp [Addressable.read2, linA, LinearMemory.read, hsz, hz, h0]

/-- Witness for C10 on a 70000-byte linear memory at address 65535. -/
theorem C10_address_wrap_witness :
    Addressable.read2 linA (LinearMemory.new 70000) 65535 = some 0 ∧
    Addressable.write2 linA (LinearMemory.new 70000) 65535 0xABCD =
      LinearMemory.write (LinearMemory.write (LinearMemory.new 70000) 65535
        (0xABCD &&& 0xff)).2 0 ((0xABCD &&& 0xff00) >>> 8) ∧
    (Addressable.write2 linA (LinearMemory.new 70000) 65535 0xABCD).1 = true ∧
    LinearMemory.read (Addressable.write2 linA (LinearMemory.new 70000) 65535 0xABCD).2 0 =
      some ((0xABCD &&& 0xff00) >>> 8) := by
  have h := C10_address_wrap linA (LinearMemory.new 70000) 0xABCD 0 0 (LinearMemory.new 70000)
  refine ⟨?_, ?_, ?_, ?_⟩
  · rw [h.1 (by decide) (by decide)]
    decide
  · exact h.2.1 (by decide)
  · exact (h.2.2 (by decide)).1
  · exact (h.2.2 (by decide)).2.2.1

end TinyVM
